import Mathlib

/-!
Shallow embedding of the persistent sample cache (`sample_sources.py`) and of
the objective-function adapter (`objective_function.py` and
`bayropt/objective_function.py`) of the bayesian_map_matcher_optimization
repository, together with theorems settling the claims about them.

Python dicts are modelled as association lists with unique keys (Python dicts
cannot hold a key twice); `d[k] = v` replaces the binding in place or appends
it, `d[k]` is a lookup that can raise `KeyError`.  Mutation and exceptions are
made explicit: every operation that mutates state returns the state as it is
after the call, also when the call raises, mirroring Python semantics in which
an exception leaves earlier writes in place.
-/

/-- A scalar parameter value as found in a rosparams dictionary: Python
ints, floats (modelled as rationals), strings and booleans. -/
inductive Scalar where
  | int (n : Int)
  | float (q : ℚ)
  | str (s : String)
  | bool (b : Bool)
deriving DecidableEq

/-- A parameter value: a scalar or a list/tuple sequence of scalars (the
spec's data model: values are scalars or short fixed-order sequences). -/
inductive Value where
  | scalar (s : Scalar)
  | list (l : List Scalar)
  | tuple (l : List Scalar)
deriving DecidableEq

/-- The numeric value of a scalar, if it is a number: Python compares ints,
floats and booleans by value across concrete types. -/
def Scalar.numVal : Scalar → Option ℚ
  | .int n => some (n : ℚ)
  | .float q => some q
  | .bool b => some (if b then 1 else 0)
  | .str _ => none

/-- Python `==` on scalar values: numbers compare by value across int, float
and bool; strings compare structurally; a number never equals a string. -/
def pyScalarEq (a b : Scalar) : Bool :=
  match a.numVal, b.numVal with
  | some x, some y => x == y
  | _, _ =>
    match a, b with
    | .str s, .str t => s == t
    | _, _ => false

/-- Python `==` on lists/tuples of scalars: elementwise. -/
def pyScalarListEq : List Scalar → List Scalar → Bool
  | [], [] => true
  | x :: xs, y :: ys => pyScalarEq x y && pyScalarListEq xs ys
  | _, _ => false

/-- Python `==` on parameter values: a list never equals a tuple. -/
def pyValueEq : Value → Value → Bool
  | .scalar a, .scalar b => pyScalarEq a b
  | .list a, .list b => pyScalarListEq a b
  | .tuple a, .tuple b => pyScalarListEq a b
  | _, _ => false

/-- A full parameter set (`params_dict`): a Python dict, name to value. -/
abbrev Params := List (String × Value)

/-- Python `d[k]` on an association-list dict: the first binding wins (the
lists we build never hold a key twice). -/
def assocGet {α β : Type} [DecidableEq α] : List (α × β) → α → Option β
  | [], _ => none
  | (k', v') :: rest, k => if k' = k then some v' else assocGet rest k

/-- Python `d[k] = v`: replace the binding in place, or append it. -/
def assocSet {α β : Type} [DecidableEq α] : List (α × β) → α → β → List (α × β)
  | [], k, v => [(k, v)]
  | (k', v') :: rest, k, v =>
    if k' = k then (k, v) :: rest else (k', v') :: assocSet rest k v

/-- Python `==` between two parameter dicts: same key set, equal values;
insensitive to insertion order. -/
def pyDictEq (p q : Params) : Bool :=
  (p.all fun kv =>
    match assocGet q kv.1 with
    | some v => pyValueEq kv.2 v
    | none => false) &&
  (q.all fun kv =>
    match assocGet p kv.1 with
    | some v => pyValueEq kv.2 v
    | none => false)

/-- 2^64, the width of the hash tokens. -/
def u64 : Nat := 18446744073709551616

/-- Hash of a string, folded character by character (a concrete stand-in for
Python's seeded string hash; any fixed in-process function is faithful,
since the source only relies on within-process determinism). -/
def strHashAux : List Char → Nat → Nat
  | [], h => h
  | c :: cs, h => strHashAux cs ((h * 31 + c.toNat) % u64)

/-- Hash token of a string. -/
def strHash (s : String) : Nat := strHashAux s.data 7

/-- Hash token of a scalar value. -/
def scalarHash : Scalar → Nat
  | .int n => (n.natAbs * 2 + (if n < 0 then 1 else 0)) % u64
  | .float q => ((q.num.natAbs * 2 + (if q.num < 0 then 1 else 0)) * 31 + q.den) % u64
  | .str s => strHash s
  | .bool b => if b then 1 else 0

/-- Hash token of a sequence of scalars (Python tuple hash). -/
def scalarListHash : List Scalar → Nat
  | [] => 5381
  | s :: rest => (scalarHash s + 33 * scalarListHash rest) % u64

/-- Hash token of a parameter value.  A `list` is unhashable in Python; the
clause exists only for totality and is unreachable after canonicalization. -/
def valueHash : Value → Nat
  | .scalar s => scalarHash s
  | .tuple l => scalarListHash l
  | .list l => (scalarListHash l + 1) % u64

namespace SampleDatabase

/-- `SampleDatabase.dict_hash`: copy the params dict, convert every
list-valued entry to a tuple (lists are not hashable), then hash the item
set order-insensitively (Python `hash(frozenset(params_dict.items()))`,
modelled as an xor-fold over the items' hashes). -/
def dict_hash (params_dict : Params) : Nat :=
  let canon := params_dict.map fun kv =>
    match kv.2 with
    | Value.list l => (kv.1, Value.tuple l)
    | v => (kv.1, v)
  (canon.map fun kv => (strHash kv.1) ^^^ (valueHash kv.2)).foldr (· ^^^ ·) 0

end SampleDatabase

/-- Modelled from the spec: `samples.py` is not under `src/`.  A Sample holds
a name/identifier (possibly absent) and pipeline-specific measurement fields
(ordered per-match error sequences), plus the tag of its Python class, which
the cache's `isinstance` check inspects.  It is a plain object, not a
mapping: it offers no `copy`/`items` dict interface. -/
structure Sample where
  name : Option String
  translation_errors : List ℚ
  rotation_errors : List ℚ
  cls : String
deriving DecidableEq

/-- One record of the persistent index: the pickle name locating the payload
on disk and the complete parameter set that generated the sample. -/
structure DBEntry where
  pickle_name : String
  params_dict : Params
deriving DecidableEq

/-- The observable state of a `SampleDatabase`: the in-memory index
(`_db_dict`, keyed by `dict_hash`), the sample directory contents (pickled
samples by file path), and the index image last persisted by `_save`. -/
structure DBState where
  db_dict : List (Nat × DBEntry)
  disk : List (String × Sample)
  saved_db : List (Nat × DBEntry)
deriving DecidableEq

/-- The sample source the database fronts: its `__getitem__` generation
operation and its declared `sample_type` (a Python class, modelled as a
tag). -/
structure SampleGenerator where
  getitem : Params → Sample
  sample_type : String

/-- The error classes raised by the cache.  Constructors carry the spec's
names; comments give the concrete Python exception raised by the source. -/
inductive DBError where
  | pickleExists (path : String)
  | duplicateKey (key : Nat)
  | hashCollision (key : Nat)
  | typeMismatch (pickle_name : String)
  | fileNotFound (path : String)
  | attributeError
  | keyNotFound (key : Nat)
deriving DecidableEq

namespace SampleDatabase

/-- `_to_pickle_path`: the sample-directory prefix is constant and elided;
a pickle file is addressed by `pickle_name + ".pkl"`. -/
def to_pickle_path (pickle_name : String) : String := pickle_name ++ ".pkl"

/-- `_pickle_sample`: refuses to overwrite an existing pickle file unless
`override_existing` is set (ValueError), otherwise writes the payload. -/
def pickle_sample (st : DBState) (sample : Sample) (pickle_name : String)
    (override_existing : Bool) : DBState × Except DBError Unit :=
  if !override_existing && (assocGet st.disk (to_pickle_path pickle_name)).isSome then
    (st, .error (.pickleExists (to_pickle_path pickle_name)))
  else
    ({ st with disk := assocSet st.disk (to_pickle_path pickle_name) sample }, .ok ())

/-- `_unpickle_sample`: load the pickle at the name's path (FileNotFoundError
when absent) and check `isinstance(sample, self.sample_type)` (TypeError,
the spec's TypeMismatchError, when the class differs). -/
def unpickle_sample (st : DBState) (sample_type : String) (pickle_name : String) :
    Except DBError Sample :=
  match assocGet st.disk (to_pickle_path pickle_name) with
  | none => .error (.fileNotFound (to_pickle_path pickle_name))
  | some sample =>
    if sample.cls = sample_type then .ok sample
    else .error (.typeMismatch pickle_name)

/-- `add_sample`: when the sample has no name the source computes
`str(SampleDatabase.dict_hash(sample))` — it passes the *sample object*, not
`params_dict`, to `dict_hash`, whose first step `params_dict.copy()` fails on
a Sample (AttributeError).  Otherwise: pickle the payload, then check for a
duplicate index key (LookupError, the spec's DuplicateKeyError), then insert
the record and persist the index (`_save`). -/
def add_sample (st : DBState) (sample : Sample) (params_dict : Params)
    (override_existing : Bool) : DBState × Except DBError Unit :=
  match sample.name with
  | none => (st, .error .attributeError)
  | some nm =>
    match pickle_sample st sample nm override_existing with
    | (st1, .error e) => (st1, .error e)
    | (st1, .ok ()) =>
      if !override_existing && (assocGet st1.db_dict (dict_hash params_dict)).isSome then
        (st1, .error (.duplicateKey (dict_hash params_dict)))
      else
        ({ st1 with
            db_dict := assocSet st1.db_dict (dict_hash params_dict) ⟨nm, params_dict⟩,
            saved_db := assocSet st1.db_dict (dict_hash params_dict) ⟨nm, params_dict⟩ },
         .ok ())

/-- `exists`: whether the index holds a record for the params' hash. -/
def exists_sample (st : DBState) (params_dict : Params) : Bool :=
  (assocGet st.db_dict (dict_hash params_dict)).isSome

/-- The tail of `__getitem__` after the existence check: fetch the db entry,
unpickle its payload, and compare the stored parameter set against the
request (LookupError, the spec's HashCollisionError, on mismatch) before
returning the sample. -/
def getitem_fetch (g : SampleGenerator) (st : DBState) (params_dict : Params) :
    Except DBError Sample :=
  let params_hashed := dict_hash params_dict
  match assocGet st.db_dict params_hashed with
  | none => .error (.keyNotFound params_hashed)
  | some db_entry =>
    match unpickle_sample st g.sample_type db_entry.pickle_name with
    | .error e => .error e
    | .ok extracted_sample =>
      if pyDictEq params_dict db_entry.params_dict then .ok extracted_sample
      else .error (.hashCollision params_hashed)

/-- `__getitem__`: on a miss, generate via the sample generator and register
the result with `add_sample`; then (hit or freshly added) unpickle the stored
sample and validate the stored params.  Returns the state after the call,
the number of generator invocations this call made, and the outcome. -/
def getitem (g : SampleGenerator) (st : DBState) (params_dict : Params) :
    DBState × Nat × Except DBError Sample :=
  if !(exists_sample st params_dict) then
    let generated_sample := g.getitem params_dict
    match add_sample st generated_sample params_dict false with
    | (st1, .error e) => (st1, 1, .error e)
    | (st1, .ok ()) => (st1, 1, getitem_fetch g st1 params_dict)
  else
    (st, 0, getitem_fetch g st params_dict)

end SampleDatabase

/-- A numeric optimized-parameter value: a Python int or float. -/
inductive PVal where
  | int (n : Int)
  | float (q : ℚ)
deriving DecidableEq

/-- The numeric value carried by a `PVal`. -/
def PVal.toRat : PVal → ℚ
  | .int n => (n : ℚ)
  | .float q => q

/-- Python `==` between numeric parameter values: by value, across types. -/
def pyPValEq (a b : PVal) : Bool := a.toRat == b.toRat

/-- The Python type of a numeric value, as inspected by `type(...)`. -/
inductive PType where
  | tInt
  | tFloat
deriving DecidableEq

/-- `type(v)` for numeric parameter values. -/
def PVal.ptype : PVal → PType
  | .int _ => .tInt
  | .float _ => .tFloat

/-- Ceiling on rationals, via the executable `Rat.floor`. -/
def ratCeil (q : ℚ) : Int := -Rat.floor (-q)

/-- Python `int(x)` on a number: truncation toward zero. -/
def truncRat (q : ℚ) : Int := if q < 0 then ratCeil q else Rat.floor q

/-- Python `type(default)(value)` for numeric parameters. -/
def pyCast (t : PType) (v : PVal) : PVal :=
  match t with
  | .tInt => .int (truncRat v.toRat)
  | .tFloat => .float v.toRat

/-- Round to an integer, ties to even (Python `round`'s tie rule). -/
def roundHalfEven (q : ℚ) : Int :=
  let f := Rat.floor q
  let r := q - f
  if r < 1 / 2 then f
  else if 1 / 2 < r then f + 1
  else if f % 2 = 0 then f else f + 1

/-- Python `round(x, d)`: ints are returned unchanged, floats are rounded at
`d` decimal places. -/
def pyRound (v : PVal) (d : Nat) : PVal :=
  match v with
  | .int n => .int n
  | .float q => .float ((roundHalfEven (q * (10 : ℚ) ^ d) : ℚ) / (10 : ℚ) ^ d)

/-- Errors of the objective-function adapter.  Constructors carry the spec's
taxonomy; in the source all of them are `ValueError`s except `keyError`
(an uncaught dict `KeyError`) and `inconsistentSample` (a `LookupError`). -/
inductive OFError where
  | missingParam (name : String)
  | overMax (name : String) (bound : ℚ)
  | underMin (name : String) (bound : ℚ)
  | outOfScope (name : String)
  | keyError (name : String)
  | inconsistentSample
deriving DecidableEq

/-- A dict of optimized parameters, name to numeric value. -/
abbrev OptParams := List (String × PVal)

/-- The adapter's state relevant to the claims: the bounds mapping
(`optimization_bounds` in `objective_function.py`, `design_space` in the
`bayropt` copy), the full default parameter set (`default_rosparams` /
`default_params`), and the rounding precision. -/
structure OFConfig where
  bounds : List (String × ℚ × ℚ)
  defaults : List (String × PVal)
  rounding_decimal_places : Nat

/-- First loop of `preprocess_optimized_params` (line-identical in both
copies of the adapter): every bound parameter must be supplied (ValueError,
the spec's MissingParameterError) and must not exceed its max bound nor fall
under its min bound (ValueError, the spec's BoundsViolationError, naming the
parameter and the violated bound). -/
def check_optimization_bounds (optimized_params : OptParams) :
    List (String × ℚ × ℚ) → Except OFError Unit
  | [] => .ok ()
  | (rosparam_name, bounds) :: rest =>
    match assocGet optimized_params rosparam_name with
    | none => .error (.missingParam rosparam_name)
    | some p_value =>
      if p_value.toRat > bounds.2 then .error (.overMax rosparam_name bounds.2)
      else if p_value.toRat < bounds.1 then .error (.underMin rosparam_name bounds.1)
      else check_optimization_bounds optimized_params rest

/-- Second loop of `preprocess_optimized_params`: reject parameters that are
not under optimization (ValueError, the spec's OutOfScopeParameterError),
cast each value to the type of its default — evaluating
`type(self.default_rosparams[p_name])` raises an uncaught KeyError when the
name has no default — and round post-cast values whose supplied value was a
float, when a rounding precision is configured. -/
def cast_round_params (cfg : OFConfig) : OptParams → Except OFError OptParams
  | [] => .ok []
  | (p_name, p_value) :: rest =>
    if (assocGet cfg.bounds p_name).isNone then .error (.outOfScope p_name)
    else
      match assocGet cfg.defaults p_name with
      | none => .error (.keyError p_name)
      | some default_value =>
        let v1 := if default_value.ptype ≠ p_value.ptype then
            pyCast default_value.ptype p_value else p_value
        let v2 := if cfg.rounding_decimal_places ≠ 0 && p_value.ptype == PType.tFloat then
            pyRound v1 cfg.rounding_decimal_places else v1
        match cast_round_params cfg rest with
        | .error e => .error e
        | .ok rest' => .ok ((p_name, v2) :: rest')

/-- `preprocess_optimized_params`: bounds validation first, then scope check,
type cast and rounding over the supplied parameters. -/
def preprocess_optimized_params (cfg : OFConfig) (optimized_params : OptParams) :
    Except OFError OptParams :=
  match check_optimization_bounds optimized_params cfg.bounds with
  | .error e => .error e
  | .ok () => cast_round_params cfg optimized_params

/-- Python `complete.update(optimized)`: write every optimized binding into
a copy of the defaults. -/
def dictUpdate (base : OptParams) : OptParams → OptParams
  | [] => base
  | (k, v) :: rest => dictUpdate (assocSet base k v) rest

/-- `evaluate` (top-level `objective_function.py`): preprocess the request,
merge it onto a copy of the defaults, then request the sample and apply the
performance measure.  The composition of the sample source and the measure
is the opaque collaborator `src`; besides the outcome, the list of complete
parameter sets actually requested from the sample source is returned, so
that "no sample was requested" is observable. -/
def evaluate (cfg : OFConfig) (src : OptParams → ℚ) (optimized_params : OptParams) :
    Except OFError ℚ × List OptParams :=
  match preprocess_optimized_params cfg optimized_params with
  | .error e => (.error e, [])
  | .ok processed =>
    let complete_rosparams := dictUpdate cfg.defaults processed
    (.ok (src complete_rosparams), [complete_rosparams])

/-- Loop of `_defined_by`: count the optimized parameters seen, return
`false` on the first non-optimized parameter whose value differs from its
default (the default lookup itself can raise KeyError), and finally raise a
LookupError when some bound parameter never appeared in the sample's
parameters.  The source builds that error's message with a
`self._sample_db[complete_rosparams]` call, which only produces message
text and is elided here. -/
def defined_by_go (cfg : OFConfig) : OptParams → Nat → Except OFError Bool
  | [], cnt => if cnt = cfg.bounds.length then .ok true else .error .inconsistentSample
  | (param, value) :: rest, cnt =>
    if (assocGet cfg.bounds param).isSome then defined_by_go cfg rest (cnt + 1)
    else
      match assocGet cfg.defaults param with
      | none => .error (.keyError param)
      | some d => if pyPValEq value d then defined_by_go cfg rest cnt else .ok false

/-- `_defined_by(complete_rosparams)`. -/
def defined_by (cfg : OFConfig) (complete_rosparams : OptParams) : Except OFError Bool :=
  defined_by_go cfg complete_rosparams 0

/-- The sample data the adapter consumes: its complete parameter set and the
scalar the (opaque, external) performance measure assigns to it. -/
structure OFSample where
  parameters : OptParams
  measure_value : ℚ
deriving DecidableEq

/-- `__iter__`: walk the sample source, filter through `_defined_by`, and
yield `(parameters, measure value, sample)` triples.  The lazy generator is
modelled by the list of yielded triples; an error raised by `_defined_by`
aborts the iteration at the offending sample. -/
def iterSamples (cfg : OFConfig) :
    List OFSample → Except OFError (List (OptParams × ℚ × OFSample))
  | [] => .ok []
  | s :: rest =>
    match defined_by cfg s.parameters with
    | .error e => .error e
    | .ok true =>
      match iterSamples cfg rest with
      | .error e => .error e
      | .ok ys => .ok ((s.parameters, s.measure_value, s) :: ys)
    | .ok false => iterSamples cfg rest

/-- Inner loop of `samples_filtered`: a parameter named in `fixed_params`
must equal its default (that default lookup can raise KeyError); every other
parameter of the sample is subscripted in the bounds mapping — an uncaught
KeyError for parameters outside it — and checked against the bounds. -/
def sample_usable (cfg : OFConfig) (fixed_params : OptParams) :
    OptParams → Except OFError Bool
  | [] => .ok true
  | (p_name, p_value) :: rest =>
    if (assocGet fixed_params p_name).isSome then
      match assocGet cfg.defaults p_name with
      | none => .error (.keyError p_name)
      | some d =>
        if pyPValEq d p_value then sample_usable cfg fixed_params rest else .ok false
    else
      match assocGet cfg.bounds p_name with
      | none => .error (.keyError p_name)
      | some bounds =>
        if p_value.toRat < bounds.1 || p_value.toRat > bounds.2 then .ok false
        else sample_usable cfg fixed_params rest

/-- `samples_filtered(fixed_params)`: iterate as `__iter__` and yield only
the usable triples; errors propagate out of the generator. -/
def samples_filtered (cfg : OFConfig) (fixed_params : OptParams) :
    List OFSample → Except OFError (List (OptParams × ℚ × OFSample))
  | [] => .ok []
  | s :: rest =>
    match defined_by cfg s.parameters with
    | .error e => .error e
    | .ok false => samples_filtered cfg fixed_params rest
    | .ok true =>
      match sample_usable cfg fixed_params s.parameters with
      | .error e => .error e
      | .ok false => samples_filtered cfg fixed_params rest
      | .ok true =>
        match samples_filtered cfg fixed_params rest with
        | .error e => .error e
        | .ok ys => .ok ((s.parameters, s.measure_value, s) :: ys)

/-- The filter condition of `samples_filtered` written from the spec's words
(for the refinement claim about it): each parameter named in `fixed_params`
equals its default value, and every remaining optimized parameter lies
inside its current bounds. -/
def usable_per_spec (cfg : OFConfig) (fixed_params : OptParams) (x : OptParams) : Bool :=
  x.all fun kv =>
    if (assocGet fixed_params kv.1).isSome then
      match assocGet cfg.defaults kv.1 with
      | some d => pyPValEq d kv.2
      | none => false
    else
      match assocGet cfg.bounds kv.1 with
      | some bounds => decide (bounds.1 ≤ kv.2.toRat) && decide (kv.2.toRat ≤ bounds.2)
      | none => false

/-- Loop shared by the two `normalize_parameters` bodies: entry by entry of
the bounds mapping, replace the dict's value by `(v - min) / (max - min)`
(the subscript raises KeyError when the name is unbound in the dict). -/
def normalize_loop : OptParams → List (String × ℚ × ℚ) → Except OFError OptParams
  | d, [] => .ok d
  | d, (rosparam_name, bounds) :: rest =>
    match assocGet d rosparam_name with
    | none => .error (.keyError rosparam_name)
    | some old_val =>
      normalize_loop
        (assocSet d rosparam_name
          (.float ((old_val.toRat - bounds.1) / (bounds.2 - bounds.1))))
        rest

/-- Loop shared by the two `denormalize_parameters` bodies: replace each
bound entry's value by `v * (max - min) + min`. -/
def denormalize_loop : OptParams → List (String × ℚ × ℚ) → Except OFError OptParams
  | d, [] => .ok d
  | d, (rosparam_name, bounds) :: rest =>
    match assocGet d rosparam_name with
    | none => .error (.keyError rosparam_name)
    | some old_val =>
      denormalize_loop
        (assocSet d rosparam_name
          (.float (old_val.toRat * (bounds.2 - bounds.1) + bounds.1)))
        rest

/-- `normalize_parameters` of the top-level `objective_function.py`: runs
the loop directly on the caller's dict and returns it.  The result pair is
(returned dict, caller's dict as it is after the call), making aliasing
observable: both components are the same mutated dict. -/
def OF.normalize_parameters (cfg : OFConfig) (optimized_params : OptParams) :
    Except OFError (OptParams × OptParams) :=
  match normalize_loop optimized_params cfg.bounds with
  | .error e => .error e
  | .ok r => .ok (r, r)

/-- `normalize_parameters` of `bayropt/objective_function.py`: first copies
the dict (`normalized_params = optimized_params.copy()`), runs the loop on
the copy and returns the copy; the caller's dict is left untouched. -/
def BayroptOF.normalize_parameters (cfg : OFConfig) (optimized_params : OptParams) :
    Except OFError (OptParams × OptParams) :=
  match normalize_loop optimized_params cfg.bounds with
  | .error e => .error e
  | .ok r => .ok (r, optimized_params)

/-- `denormalize_parameters` of the top-level `objective_function.py`:
in place on the caller's dict, like its normalize. -/
def OF.denormalize_parameters (cfg : OFConfig) (optimized_params : OptParams) :
    Except OFError (OptParams × OptParams) :=
  match denormalize_loop optimized_params cfg.bounds with
  | .error e => .error e
  | .ok r => .ok (r, r)

/-- `denormalize_parameters` of `bayropt/objective_function.py`: also in
place on the caller's dict (unlike the bayropt normalize, it takes no
copy). -/
def BayroptOF.denormalize_parameters (cfg : OFConfig) (optimized_params : OptParams) :
    Except OFError (OptParams × OptParams) :=
  match denormalize_loop optimized_params cfg.bounds with
  | .error e => .error e
  | .ok r => .ok (r, r)

/-- Decidable equality of outcomes, so that the concrete evaluations below
can be checked by `decide`. -/
instance {ε α : Type} [DecidableEq ε] [DecidableEq α] : DecidableEq (Except ε α)
  | .error e, .error e' =>
    if h : e = e' then .isTrue (by rw [h])
    else .isFalse (by intro hh; injection hh; exact h (by assumption))
  | .error _, .ok _ => .isFalse (fun hh => Except.noConfusion hh)
  | .ok _, .error _ => .isFalse (fun hh => Except.noConfusion hh)
  | .ok a, .ok b =>
    if h : a = b then .isTrue (by rw [h])
    else .isFalse (by intro hh; injection hh; exact h (by assumption))

/-- A one-parameter set, used by the concrete evaluations below. -/
def pX1 : Params := [("x1", Value.scalar (Scalar.int 1))]

/-- A different one-parameter set with the same key. -/
def pOther : Params := [("x1", Value.scalar (Scalar.int 2))]

/-- A named, well-typed map-matcher sample. -/
def mmSample : Sample := ⟨some "s", [], [], "MapMatcherSample"⟩

/-- Another sample that would occupy the pickle name "s". -/
def mmSampleB : Sample := ⟨some "s", [1], [], "MapMatcherSample"⟩

/-- A sample with no name assigned yet. -/
def nonameSample : Sample := ⟨none, [], [], "MapMatcherSample"⟩

/-- A generator producing `mmSample` for every request, with a matching
declared sample type. -/
def mmGen : SampleGenerator := ⟨fun _ => mmSample, "MapMatcherSample"⟩

/-- A freshly initialized database state. -/
def stEmpty : DBState := ⟨[], [], []⟩

/-- A state whose index is empty but whose sample directory holds an orphaned
payload at the name the generator will pick — the state a crash between
payload write and index write leaves behind. -/
def stOrphan : DBState := ⟨[], [("s.pkl", mmSampleB)], []⟩

/-- An index record filed under `pX1`'s hash but storing `pOther` — the
manufactured hash collision of the spec's collision sanity scenario. -/
def entryOther : DBEntry := ⟨"s", pOther⟩

/-- A state holding the manufactured collision, with its payload on disk. -/
def stCollision : DBState :=
  ⟨[(SampleDatabase.dict_hash pX1, entryOther)], [("s.pkl", mmSample)],
   [(SampleDatabase.dict_hash pX1, entryOther)]⟩

/-- An index record for `pX1` itself, stored under the pickle name "other". -/
def entrySelf : DBEntry := ⟨"other", pX1⟩

/-- A state that already has a record for `pX1`'s hash and also an unrelated
payload file occupying the name "s". -/
def stDup : DBState :=
  ⟨[(SampleDatabase.dict_hash pX1, entrySelf)], [("s.pkl", mmSampleB)],
   [(SampleDatabase.dict_hash pX1, entrySelf)]⟩

/-- A state with a record for `pX1`'s hash and no payload file at "s". -/
def stDupClean : DBState :=
  ⟨[(SampleDatabase.dict_hash pX1, entrySelf)], [],
   [(SampleDatabase.dict_hash pX1, entrySelf)]⟩

/-- The state `add_sample` produces from the empty database for
(`mmSample`, `pX1`). -/
def stAfterAdd : DBState :=
  ⟨[(SampleDatabase.dict_hash pX1, ⟨"s", pX1⟩)], [("s.pkl", mmSample)],
   [(SampleDatabase.dict_hash pX1, ⟨"s", pX1⟩)]⟩

/-- Adapter config: one optimized parameter `a` in [0,1], defaults for `a`
and the non-optimized `b`. -/
def cfgAB : OFConfig := ⟨[("a", (0, 1))], [("a", PVal.float 0), ("b", PVal.int 5)], 0⟩

/-- A stored sample lacking the bound parameter `a`, with `b` off-default. -/
def sampleB6 : OFSample := ⟨[("b", PVal.int 6)], 0⟩

/-- A stored sample inside the adapter's domain, containing the
non-optimized parameter `b` at its default. -/
def sampleAB : OFSample := ⟨[("a", PVal.float 1), ("b", PVal.int 5)], 0⟩

/-- Adapter config bounding `a`, whose defaults only know `b`. -/
def cfgAonly : OFConfig := ⟨[("a", (0, 1))], [("b", PVal.int 5)], 0⟩

/-- A sample carrying only the non-optimized `b` at its default value. -/
def sampleBdef : OFSample := ⟨[("b", PVal.int 5)], 0⟩

/-- Adapter config with a single optimized parameter and its default. -/
def cfgA : OFConfig := ⟨[("a", (0, 1))], [("a", PVal.float 0)], 0⟩

/-- A fixed-parameter slice pinning `a`. -/
def fixedA : OptParams := [("a", PVal.float 0)]

/-- A sample sitting at the default of `a`. -/
def sampleA0 : OFSample := ⟨[("a", PVal.float 0)], 3⟩

/-- Adapter config bounding `a` in [0,4], with no defaults (normalization
never consults them). -/
def cfgA4 : OFConfig := ⟨[("a", (0, 4))], [], 0⟩

/-- The request `a = 2.0`. -/
def pA2 : OptParams := [("a", PVal.float 2)]

/-- Adapter config bounding `a` in [0,5] with no default for `a`. -/
def cfgA5 : OFConfig := ⟨[("a", (0, 5))], [], 0⟩

/-- The request `a = 3.0`. -/
def pA3 : OptParams := [("a", PVal.float 3)]

/-- Adapter config bounding `a` in [0,5] with a default for `a`. -/
def cfgBounds5 : OFConfig := ⟨[("a", (0, 5))], [("a", PVal.float 1)], 0⟩

/-- The request `a = 5.0`, exactly at the max bound. -/
def pA5 : OptParams := [("a", PVal.float 5)]

/-- The request `a = 6.0`, strictly over the max bound. -/
def pA6 : OptParams := [("a", PVal.float 6)]

theorem assocGet_assocSet_self {α β : Type} [DecidableEq α] (l : List (α × β)) (k : α) (v : β) :
    assocGet (assocSet l k v) k = some v := by
  induction l with
  | nil => simp [assocSet, assocGet]
  | cons hd tl ih =>
    by_cases h : hd.1 = k
    · simp [assocSet, assocGet, h]
    · simpa [assocSet, assocGet, h] using ih

theorem assocGet_assocSet_ne {α β : Type} [DecidableEq α] (l : List (α × β)) (k k' : α) (v : β)
    (h : k' ≠ k) : assocGet (assocSet l k v) k' = assocGet l k' := by
  induction l with
  | nil =>
    simp only [assocSet, assocGet]
    rw [if_neg (Ne.symm h)]
  | cons hd tl ih =>
    by_cases hk : hd.1 = k
    · subst hk
      simp only [assocSet, if_pos rfl, assocGet]
      rw [if_neg (Ne.symm h), if_neg (Ne.symm h)]
    · simp only [assocSet, if_neg hk, assocGet]
      by_cases hk' : hd.1 = k'
      · rw [if_pos hk', if_pos hk']
      · rw [if_neg hk', if_neg hk', ih]

theorem assocGet_isSome_assocSet {α β : Type} [DecidableEq α] (l : List (α × β)) (k k' : α)
    (v : β) (h : (assocGet l k').isSome) : (assocGet (assocSet l k v) k').isSome := by
  by_cases hk : k' = k
  · subst hk; simp [assocGet_assocSet_self]
  · rw [assocGet_assocSet_ne l k k' v hk]; exact h

theorem mem_keys_of_assocGet {α β : Type} [DecidableEq α] {l : List (α × β)} {k : α} {v : β}
    (h : assocGet l k = some v) : k ∈ l.map Prod.fst := by
  induction l with
  | nil => simp [assocGet] at h
  | cons hd tl ih =>
    by_cases hk : hd.1 = k
    · simp [hk.symm]
    · simp only [assocGet, if_neg hk] at h
      simp [ih h]

theorem assocGet_eq_none_of_not_mem {α β : Type} [DecidableEq α] {l : List (α × β)} {k : α}
    (h : k ∉ l.map Prod.fst) : assocGet l k = none := by
  induction l with
  | nil => rfl
  | cons hd tl ih =>
    simp only [List.map_cons, List.mem_cons] at h
    push_neg at h
    simp only [assocGet, if_neg (Ne.symm h.1)]
    exact ih h.2

theorem not_mem_keys_of_assocGet_none {α β : Type} [DecidableEq α] {l : List (α × β)} {k : α}
    (h : assocGet l k = none) : k ∉ l.map Prod.fst := by
  intro hmem
  induction l with
  | nil => simp at hmem
  | cons hd tl ih =>
    by_cases hk : hd.1 = k
    · simp [assocGet, hk] at h
    · simp only [assocGet, if_neg hk] at h
      simp only [List.map_cons, List.mem_cons] at hmem
      rcases hmem with hmem | hmem
      · exact hk hmem.symm
      · exact ih h hmem

theorem assocGet_eq_of_mem_nodup {α β : Type} [DecidableEq α] {l : List (α × β)} {k : α} {v : β}
    (hnd : (l.map Prod.fst).Nodup) (hmem : (k, v) ∈ l) : assocGet l k = some v := by
  induction l with
  | nil => simp at hmem
  | cons hd tl ih =>
    simp only [List.map_cons, List.nodup_cons] at hnd
    rcases List.mem_cons.mp hmem with hmem | hmem
    · subst hmem; simp [assocGet]
    · have hk : hd.1 ≠ k := by
        intro hh
        exact hnd.1 (hh ▸ (List.mem_map.mpr ⟨(k, v), hmem, rfl⟩))
      simp only [assocGet, if_neg hk]
      exact ih hnd.2 hmem

theorem pyScalarEq_refl (a : Scalar) : pyScalarEq a a = true := by
  cases a <;> simp [pyScalarEq, Scalar.numVal]

theorem pyScalarListEq_refl (l : List Scalar) : pyScalarListEq l l = true := by
  induction l with
  | nil => rfl
  | cons hd tl ih => simp [pyScalarListEq, pyScalarEq_refl, ih]

theorem pyValueEq_refl (v : Value) : pyValueEq v v = true := by
  cases v <;> simp [pyValueEq, pyScalarEq_refl, pyScalarListEq_refl]

theorem pyDictEq_refl {p : Params} (hnd : (p.map Prod.fst).Nodup) : pyDictEq p p = true := by
  have hall : p.all (fun kv =>
      match assocGet p kv.1 with
      | some v => pyValueEq kv.2 v
      | none => false) = true := by
    rw [List.all_eq_true]
    intro kv hkv
    rw [assocGet_eq_of_mem_nodup hnd hkv]
    exact pyValueEq_refl kv.2
  simp [pyDictEq, hall]

theorem pyPValEq_refl (v : PVal) : pyPValEq v v = true := by
  simp [pyPValEq]

/-- Claim C3: `SampleDatabase.dict_hash` is deterministic within one process —
hashing the same parameter set twice yields the same token — and replacing a
list-valued entry by the equal tuple leaves the token unchanged. -/
theorem c3_dict_hash_canonicalization (p a b : Params) (k : String) (l : List Scalar) :
    SampleDatabase.dict_hash p = SampleDatabase.dict_hash p ∧
    SampleDatabase.dict_hash (a ++ (k, Value.list l) :: b) =
      SampleDatabase.dict_hash (a ++ (k, Value.tuple l) :: b) := by
  refine ⟨rfl, ?_⟩
  simp [SampleDatabase.dict_hash]

/-- Claim C6 (code bug): `add_sample` on a nameless sample passes the sample
object — not its defining parameter set — to `dict_hash`, whose dict
operations fail on a Sample; the embedded call errors instead of assigning
the canonical hash of `pX1` as the name. -/
theorem c6_nameless_sample_add_fails :
    SampleDatabase.add_sample stEmpty nonameSample pX1 false =
      (stEmpty, .error .attributeError) := rfl

/-- Claim C1 (counterexample): a cache state with no record for `pX1`'s hash
but an orphaned payload file at the name the generator picks (a state the
spec's crash rule explicitly leaves behind).  The first lookup invokes the
generator and fails while persisting; the second lookup invokes the generator
*again* (so generation is not "exactly once, on the first call only") and
returns no sample at all. -/
theorem c1_counterexample :
    SampleDatabase.exists_sample stOrphan pX1 = false ∧
    (SampleDatabase.getitem mmGen stOrphan pX1).2.1 = 1 ∧
    (SampleDatabase.getitem mmGen (SampleDatabase.getitem mmGen stOrphan pX1).1 pX1).2.1 = 1 ∧
    (SampleDatabase.getitem mmGen (SampleDatabase.getitem mmGen stOrphan pX1).1 pX1).2.2 =
      .error (.pickleExists "s.pkl") :=
  ⟨rfl, rfl, rfl, rfl⟩

/-- Claim C4 (counterexample): a record already exists for `pX1`'s hash and
`override_existing` is false, yet `add_sample` raises the payload-name
collision error (`_pickle_sample`'s ValueError), not DuplicateKeyError,
because the payload write precedes the duplicate-key check. -/
theorem c4_counterexample :
    (assocGet stDup.db_dict (SampleDatabase.dict_hash pX1)).isSome = true ∧
    SampleDatabase.add_sample stDup mmSample pX1 false =
      (stDup, .error (.pickleExists "s.pkl")) ∧
    (SampleDatabase.add_sample stDup mmSample pX1 false).2 ≠
      .error (.duplicateKey (SampleDatabase.dict_hash pX1)) :=
  ⟨rfl, rfl, by decide⟩

/-- Claim C7 (counterexample): `sampleB6` lacks the bound parameter `a`
entirely, yet `_defined_by` returns `false` (because `b` differs from its
default, checked before the bound-parameter count) and `__iter__` silently
skips the sample instead of raising a LookupError-class error. -/
theorem c7_counterexample :
    assocGet sampleB6.parameters "a" = none ∧
    defined_by cfgAB sampleB6.parameters = .ok false ∧
    iterSamples cfgAB [sampleB6] = .ok [] := by
  refine ⟨rfl, by decide, by decide⟩

/-- Claim C8 (counterexample): `sampleAB` is in the adapter's domain and
merely contains the non-optimized parameter `b` (at its default), yet
`samples_filtered` with an empty `fixed_params` raises an uncaught KeyError
subscripting the bounds mapping with `b`, instead of yielding the triple. -/
theorem c8_counterexample :
    defined_by cfgAB sampleAB.parameters = .ok true ∧
    assocGet cfgAB.bounds "b" = none ∧
    samples_filtered cfgAB [] [sampleAB] = .error (.keyError "b") := by
  refine ⟨by decide, rfl, by decide⟩

/-- Claim C9 (counterexample): `denormalize_parameters` of
`bayropt/objective_function.py` maps `a = 2.0` over bounds (0,4) to 8.0 *in
place*: the caller's mapping after the call equals the returned dict and
differs from the original. -/
theorem c9_counterexample :
    BayroptOF.denormalize_parameters cfgA4 pA2 =
      .ok ([("a", PVal.float 8)], [("a", PVal.float 8)]) ∧
    ([("a", PVal.float 8)] : OptParams) ≠ pA2 := by
  constructor
  · simp only [BayroptOF.denormalize_parameters, denormalize_loop, cfgA4, pA2,
      assocGet, assocSet, if_pos]
    norm_num [PVal.toRat]
  · simp [pA2]

/-- Claim C2: when a record exists for the request's hash (and, per the
spec's index/payload invariant, its payload is on disk with the expected
type), `__getitem__` compares the stored parameter set against the request:
it raises the HashCollisionError-class error when they differ, and whenever
it returns a sample the stored parameter set equals the requested one. -/
theorem c2_collision_guard (g : SampleGenerator) (st : DBState) (P : Params)
    (e : DBEntry) (s : Sample)
    (he : assocGet st.db_dict (SampleDatabase.dict_hash P) = some e)
    (hpay : assocGet st.disk (SampleDatabase.to_pickle_path e.pickle_name) = some s)
    (hcls : s.cls = g.sample_type) :
    (pyDictEq P e.params_dict = false →
      SampleDatabase.getitem g st P =
        (st, 0, .error (.hashCollision (SampleDatabase.dict_hash P)))) ∧
    (∀ st' c sample, SampleDatabase.getitem g st P = (st', c, .ok sample) →
      pyDictEq P e.params_dict = true) := by
  have hex : SampleDatabase.exists_sample st P = true := by
    unfold SampleDatabase.exists_sample
    rw [he]
    rfl
  have hfetch : SampleDatabase.getitem_fetch g st P =
      (if pyDictEq P e.params_dict then .ok s
       else .error (.hashCollision (SampleDatabase.dict_hash P))) := by
    simp [SampleDatabase.getitem_fetch, SampleDatabase.unpickle_sample, he, hpay, hcls]
  have hrun : SampleDatabase.getitem g st P =
      (st, 0, SampleDatabase.getitem_fetch g st P) := by
    unfold SampleDatabase.getitem
    rw [hex]
    rfl
  constructor
  · intro hne
    rw [hrun, hfetch, hne]
    rfl
  · intro st' c sample hok
    cases hb : pyDictEq P e.params_dict
    · rw [hrun, hfetch, hb] at hok
      simp at hok
    · rfl

/-- Claim C2 (witness): the manufactured collision — `pOther` filed under
`pX1`'s hash with its payload on disk — makes the lookup raise the
HashCollisionError-class error rather than return the wrong sample. -/
theorem c2_witness :
    SampleDatabase.getitem mmGen stCollision pX1 =
      (stCollision, 0, .error (.hashCollision (SampleDatabase.dict_hash pX1))) :=
  (c2_collision_guard mmGen stCollision pX1 entryOther mmSample (by decide) (by decide)
    (by decide)).1 (by decide)

/-- Claim C1 (amended): for a request `P` with no record under its hash,
provided the generator's sample for `P` carries a name, is of the
generator's declared sample type, and no payload file already occupies that
name, two sequential lookups invoke the generator exactly once — on the
first call only — and both calls return the generated sample, so the second
call's sample equals the first's. -/
theorem c1_lookup_idempotent (g : SampleGenerator) (st : DBState) (P : Params) (nm : String)
    (hk : (P.map Prod.fst).Nodup)
    (hmiss : assocGet st.db_dict (SampleDatabase.dict_hash P) = none)
    (hname : (g.getitem P).name = some nm)
    (htype : (g.getitem P).cls = g.sample_type)
    (hdisk : assocGet st.disk (SampleDatabase.to_pickle_path nm) = none) :
    (SampleDatabase.getitem g st P).2.1 = 1 ∧
    (SampleDatabase.getitem g (SampleDatabase.getitem g st P).1 P).2.1 = 0 ∧
    (SampleDatabase.getitem g st P).2.2 = .ok (g.getitem P) ∧
    (SampleDatabase.getitem g (SampleDatabase.getitem g st P).1 P).2.2 =
      .ok (g.getitem P) := by
  set gs := g.getitem P with hgs
  have hpickle : SampleDatabase.pickle_sample st gs nm false =
      ({ st with disk := assocSet st.disk (SampleDatabase.to_pickle_path nm) gs }, .ok ()) := by
    simp [SampleDatabase.pickle_sample, hdisk]
  have hadd : SampleDatabase.add_sample st gs P false =
      ({ db_dict := assocSet st.db_dict (SampleDatabase.dict_hash P) ⟨nm, P⟩,
         disk := assocSet st.disk (SampleDatabase.to_pickle_path nm) gs,
         saved_db := assocSet st.db_dict (SampleDatabase.dict_hash P) ⟨nm, P⟩ }, .ok ()) := by
    simp [SampleDatabase.add_sample, hname, hpickle, hmiss]
  have hex1 : SampleDatabase.exists_sample st P = false := by
    simp [SampleDatabase.exists_sample, hmiss]
  set st2 : DBState :=
    { db_dict := assocSet st.db_dict (SampleDatabase.dict_hash P) ⟨nm, P⟩,
      disk := assocSet st.disk (SampleDatabase.to_pickle_path nm) gs,
      saved_db := assocSet st.db_dict (SampleDatabase.dict_hash P) ⟨nm, P⟩ } with hst2
  have hfetch : SampleDatabase.getitem_fetch g st2 P = .ok gs := by
    simp [SampleDatabase.getitem_fetch, SampleDatabase.unpickle_sample, hst2,
      assocGet_assocSet_self, htype, pyDictEq_refl hk]
  have hrun1 : SampleDatabase.getitem g st P = (st2, 1, .ok gs) := by
    simp [SampleDatabase.getitem, hex1, hadd, hfetch, hst2]
  have hex2 : SampleDatabase.exists_sample st2 P = true := by
    simp [SampleDatabase.exists_sample, hst2, assocGet_assocSet_self]
  have hrun2 : SampleDatabase.getitem g st2 P = (st2, 0, .ok gs) := by
    simp [SampleDatabase.getitem, hex2, hfetch]
  rw [hrun1]
  exact ⟨rfl, by simp [hrun2], rfl, by simp [hrun2]⟩

/-- Claim C1 (witness): on the empty database the amended idempotence holds
at the concrete request `pX1`. -/
theorem c1_witness :
    (SampleDatabase.getitem mmGen stEmpty pX1).2.1 = 1 ∧
    (SampleDatabase.getitem mmGen (SampleDatabase.getitem mmGen stEmpty pX1).1 pX1).2.1 = 0 ∧
    (SampleDatabase.getitem mmGen stEmpty pX1).2.2 = .ok (mmGen.getitem pX1) ∧
    (SampleDatabase.getitem mmGen (SampleDatabase.getitem mmGen stEmpty pX1).1 pX1).2.2 =
      .ok (mmGen.getitem pX1) :=
  c1_lookup_idempotent mmGen stEmpty pX1 "s" (by decide) rfl rfl rfl rfl

/-- Claim C4 (amended): with a record already present for the hash and
`override_existing` false, `add_sample` raises DuplicateKeyError — provided
the sample carries a name and no payload file already occupies it, the
payload-name collision error being raised first otherwise — and the index
mapping (in memory and as last persisted) is left unchanged.  And every
successful `add_sample`, from any state, writes the payload while the index
is still untouched (strictly before the index insertion) and persists the
full updated index before returning. -/
theorem c4_payload_before_index (st : DBState) (sample : Sample) (P : Params) (nm : String)
    (hname : sample.name = some nm)
    (hdisk : assocGet st.disk (SampleDatabase.to_pickle_path nm) = none)
    (hdup : (assocGet st.db_dict (SampleDatabase.dict_hash P)).isSome = true) :
    ((SampleDatabase.add_sample st sample P false).1.db_dict = st.db_dict ∧
     (SampleDatabase.add_sample st sample P false).1.saved_db = st.saved_db ∧
     (SampleDatabase.add_sample st sample P false).2 =
       .error (.duplicateKey (SampleDatabase.dict_hash P))) ∧
    (∀ (st0 : DBState) (ov : Bool) (st' : DBState),
      SampleDatabase.add_sample st0 sample P ov = (st', .ok ()) →
      ∃ stMid : DBState,
        SampleDatabase.pickle_sample st0 sample nm ov = (stMid, .ok ()) ∧
        stMid.db_dict = st0.db_dict ∧ stMid.saved_db = st0.saved_db ∧
        st'.disk = stMid.disk ∧
        st'.db_dict = assocSet st0.db_dict (SampleDatabase.dict_hash P) ⟨nm, P⟩ ∧
        st'.saved_db = st'.db_dict) := by
  constructor
  · have hpickle : SampleDatabase.pickle_sample st sample nm false =
        ({ st with disk := assocSet st.disk (SampleDatabase.to_pickle_path nm) sample },
         .ok ()) := by
      simp [SampleDatabase.pickle_sample, hdisk]
    refine ⟨?_, ?_, ?_⟩ <;>
      simp [SampleDatabase.add_sample, hname, hpickle, hdup]
  · intro st0 ov st' heq
    rcases hps : SampleDatabase.pickle_sample st0 sample nm ov with ⟨stM, rM⟩
    cases rM with
    | error e =>
      simp only [SampleDatabase.add_sample, hname, hps] at heq
      exact absurd heq (by simp)
    | ok u =>
      cases u
      have hstM : stM =
          { st0 with disk := assocSet st0.disk (SampleDatabase.to_pickle_path nm) sample } := by
        unfold SampleDatabase.pickle_sample at hps
        split at hps
        · exact absurd hps (by simp)
        · injection hps with h1 h2
          exact h1.symm
      simp only [SampleDatabase.add_sample, hname, hps] at heq
      by_cases hdup0 :
          (!ov && (assocGet stM.db_dict (SampleDatabase.dict_hash P)).isSome) = true
      · rw [if_pos hdup0] at heq
        exact absurd heq (by simp)
      · rw [if_neg hdup0] at heq
        injection heq with h1 h2
        refine ⟨stM, rfl, by rw [hstM], by rw [hstM], ?_, ?_, ?_⟩
        · rw [← h1]
        · rw [← h1, hstM]
        · rw [← h1]

/-- Claim C4 (witness): the amended duplicate-key behaviour at `stDupClean`
and the payload-before-index ordering of the successful insertion into the
empty database. -/
theorem c4_witness :
    ((SampleDatabase.add_sample stDupClean mmSample pX1 false).1.db_dict =
       stDupClean.db_dict ∧
     (SampleDatabase.add_sample stDupClean mmSample pX1 false).1.saved_db =
       stDupClean.saved_db ∧
     (SampleDatabase.add_sample stDupClean mmSample pX1 false).2 =
       .error (.duplicateKey (SampleDatabase.dict_hash pX1))) ∧
    (∃ stMid : DBState,
      SampleDatabase.pickle_sample stEmpty mmSample "s" false = (stMid, .ok ()) ∧
      stMid.db_dict = stEmpty.db_dict ∧ stMid.saved_db = stEmpty.saved_db ∧
      stAfterAdd.disk = stMid.disk ∧
      stAfterAdd.db_dict =
        assocSet stEmpty.db_dict (SampleDatabase.dict_hash pX1) ⟨"s", pX1⟩ ∧
      stAfterAdd.saved_db = stAfterAdd.db_dict) :=
  ⟨(c4_payload_before_index stDupClean mmSample pX1 "s" rfl rfl (by decide)).1,
   (c4_payload_before_index stDupClean mmSample pX1 "s" rfl rfl (by decide)).2
     stEmpty false stAfterAdd (by decide)⟩

theorem check_bounds_error_mem (params : OptParams) (bl : List (String × ℚ × ℚ))
    (n' : String) (b : ℚ)
    (h : check_optimization_bounds params bl = .error (.overMax n' b) ∨
         check_optimization_bounds params bl = .error (.underMin n' b)) :
    n' ∈ bl.map Prod.fst := by
  induction bl with
  | nil => rcases h with h | h <;> simp [check_optimization_bounds] at h
  | cons hd tl ih =>
    rcases hd with ⟨n0, lo0, hi0⟩
    rcases hg : assocGet params n0 with _ | v
    · rcases h with h | h <;> simp [check_optimization_bounds, hg] at h
    · by_cases hov : v.toRat > hi0
      · rcases h with h | h <;>
          simp only [check_optimization_bounds, hg, if_pos hov] at h
        · injection h with h
          injection h with h1 h2
          simp [h1]
        · exact absurd h (by simp)
      · by_cases hun : v.toRat < lo0
        · rcases h with h | h <;>
            simp only [check_optimization_bounds, hg, if_neg hov, if_pos hun] at h
          · exact absurd h (by simp)
          · injection h with h
            injection h with h1 h2
            simp [h1]
        · simp only [check_optimization_bounds, hg, if_neg hov, if_neg hun] at h
          simp [ih h]

theorem mem_of_assocGet {α β : Type} [DecidableEq α] {l : List (α × β)} {k : α} {v : β}
    (h : assocGet l k = some v) : (k, v) ∈ l := by
  induction l with
  | nil => simp [assocGet] at h
  | cons hd tl ih =>
    rcases hd with ⟨k', v'⟩
    by_cases hk : k' = k
    · simp only [assocGet, if_pos hk] at h
      injection h with h
      subst hk
      subst h
      exact List.mem_cons_self _ _
    · simp only [assocGet, if_neg hk] at h
      exact List.mem_cons_of_mem _ (ih h)

theorem check_bounds_at_bound_pass (params : OptParams) (bl : List (String × ℚ × ℚ))
    (name : String) (lo hi : ℚ) (v : PVal)
    (hnd : (bl.map Prod.fst).Nodup)
    (hwf : ∀ nb ∈ bl, nb.2.1 ≤ nb.2.2)
    (hb : assocGet bl name = some (lo, hi))
    (hv : assocGet params name = some v)
    (hat : v.toRat = lo ∨ v.toRat = hi) (b : ℚ) :
    check_optimization_bounds params bl ≠ .error (.overMax name b) ∧
    check_optimization_bounds params bl ≠ .error (.underMin name b) := by
  have hle : lo ≤ hi := hwf (name, lo, hi) (mem_of_assocGet hb)
  have hvle : v.toRat ≤ hi := by
    rcases hat with h | h
    · exact h.trans_le hle
    · exact le_of_eq h
  have hvge : lo ≤ v.toRat := by
    rcases hat with h | h
    · exact ge_of_eq h
    · exact hle.trans_eq h.symm
  clear hat hle hwf
  induction bl with
  | nil => constructor <;> simp [check_optimization_bounds]
  | cons hd tl ih =>
    rcases hd with ⟨n0, lo0, hi0⟩
    simp only [List.map_cons, List.nodup_cons] at hnd
    by_cases hn0 : n0 = name
    · subst hn0
      simp only [assocGet, if_pos rfl] at hb
      injection hb with hb
      rw [Prod.mk.injEq] at hb
      rcases hb with ⟨hblo, hbhi⟩
      subst hblo
      subst hbhi
      simp only [check_optimization_bounds, hv, if_neg (not_lt.mpr hvle),
        if_neg (not_lt.mpr hvge)]
      constructor <;> intro hcon
      · exact hnd.1 (check_bounds_error_mem params tl n0 b (Or.inl hcon))
      · exact hnd.1 (check_bounds_error_mem params tl n0 b (Or.inr hcon))
    · simp only [assocGet, if_neg hn0] at hb
      rcases hg : assocGet params n0 with _ | v0
      · constructor <;> simp [check_optimization_bounds, hg]
      · by_cases hov : v0.toRat > hi0
        · constructor <;>
            simp only [check_optimization_bounds, hg, if_pos hov] <;> intro hcon
          · injection hcon with hcon
            injection hcon with h1 h2
            exact hn0 h1
          · exact absurd hcon (by simp)
        · by_cases hun : v0.toRat < lo0
          · constructor <;>
              simp only [check_optimization_bounds, hg, if_neg hov, if_pos hun] <;> intro hcon
            · exact absurd hcon (by simp)
            · injection hcon with hcon
              injection hcon with h1 h2
              exact hn0 h1
          · simp only [check_optimization_bounds, hg, if_neg hov, if_neg hun]
            exact ih hnd.2 hb

theorem check_bounds_violation_found (params : OptParams) (bl : List (String × ℚ × ℚ))
    (hnd : (bl.map Prod.fst).Nodup)
    (hall : ∀ nb ∈ bl, (assocGet params nb.1).isSome = true)
    (name : String) (lo hi : ℚ) (v : PVal)
    (hmem : (name, lo, hi) ∈ bl)
    (hv : assocGet params name = some v)
    (hviol : v.toRat > hi ∨ v.toRat < lo) :
    ∃ n' b v', assocGet params n' = some v' ∧
      ((check_optimization_bounds params bl = .error (.overMax n' b) ∧ v'.toRat > b) ∨
       (check_optimization_bounds params bl = .error (.underMin n' b) ∧ v'.toRat < b)) := by
  induction bl with
  | nil => simp at hmem
  | cons hd tl ih =>
    rcases hd with ⟨n0, lo0, hi0⟩
    simp only [List.map_cons, List.nodup_cons] at hnd
    have hs0 := hall (n0, lo0, hi0) (List.mem_cons_self _ _)
    rcases hg : assocGet params n0 with _ | v0
    · rw [hg] at hs0
      simp at hs0
    · by_cases hov : v0.toRat > hi0
      · exact ⟨n0, hi0, v0, hg,
          Or.inl ⟨by simp only [check_optimization_bounds, hg, if_pos hov], hov⟩⟩
      · by_cases hun : v0.toRat < lo0
        · exact ⟨n0, lo0, v0, hg,
            Or.inr ⟨by simp only [check_optimization_bounds, hg, if_neg hov, if_pos hun], hun⟩⟩
        · have hmem' : (name, lo, hi) ∈ tl := by
            rcases List.mem_cons.mp hmem with he | he
            · exfalso
              rw [Prod.mk.injEq, Prod.mk.injEq] at he
              rcases he with ⟨he1, he2, he3⟩
              subst he1
              rw [hg] at hv
              injection hv with hv
              subst hv
              subst he2
              subst he3
              rcases hviol with hh | hh
              · exact hov hh
              · exact hun hh
            · exact he
          obtain ⟨n', b, v', hnv, hcase⟩ :=
            ih hnd.2 (fun nb hnb => hall nb (List.mem_cons_of_mem _ hnb)) hmem'
          refine ⟨n', b, v', hnv, ?_⟩
          rcases hcase with ⟨hc, hgt⟩ | ⟨hc, hlt⟩
          · exact Or.inl ⟨by
              simp only [check_optimization_bounds, hg, if_neg hov, if_neg hun]
              exact hc, hgt⟩
          · exact Or.inr ⟨by
              simp only [check_optimization_bounds, hg, if_neg hov, if_neg hun]
              exact hc, hlt⟩

/-- Claim C5: with every bound parameter supplied and well-formed bounds, a
supplied value exactly at its parameter's min or max is never flagged by the
bounds validation (no BoundsViolationError names that parameter), while a
value strictly over max or strictly under min makes `evaluate` fail with a
BoundsViolationError naming a genuinely offending parameter and its violated
bound, before any sample is requested from the sample source. -/
theorem c5_bounds_enforcement (cfg : OFConfig) (src : OptParams → ℚ) (params : OptParams)
    (hnd : (cfg.bounds.map Prod.fst).Nodup)
    (hwf : ∀ nb ∈ cfg.bounds, nb.2.1 ≤ nb.2.2)
    (hall : ∀ nb ∈ cfg.bounds, (assocGet params nb.1).isSome = true) :
    (∀ name lo hi v, assocGet cfg.bounds name = some (lo, hi) →
      assocGet params name = some v → (v.toRat = lo ∨ v.toRat = hi) →
      ∀ b, check_optimization_bounds params cfg.bounds ≠ .error (.overMax name b) ∧
           check_optimization_bounds params cfg.bounds ≠ .error (.underMin name b)) ∧
    (∀ name lo hi v, (name, lo, hi) ∈ cfg.bounds →
      assocGet params name = some v → (v.toRat > hi ∨ v.toRat < lo) →
      ∃ n' b v', assocGet params n' = some v' ∧
        (((evaluate cfg src params).1 = .error (.overMax n' b) ∧ v'.toRat > b) ∨
         ((evaluate cfg src params).1 = .error (.underMin n' b) ∧ v'.toRat < b)) ∧
        (evaluate cfg src params).2 = []) := by
  constructor
  · intro name lo hi v hb hv hat b
    exact check_bounds_at_bound_pass params cfg.bounds name lo hi v hnd hwf hb hv hat b
  · intro name lo hi v hmem hv hviol
    obtain ⟨n', b, v', hnv, hcase⟩ :=
      check_bounds_violation_found params cfg.bounds hnd hall name lo hi v hmem hv hviol
    rcases hcase with ⟨hc, hgt⟩ | ⟨hc, hlt⟩
    · exact ⟨n', b, v', hnv,
        Or.inl ⟨by simp [evaluate, preprocess_optimized_params, hc], hgt⟩,
        by simp [evaluate, preprocess_optimized_params, hc]⟩
    · exact ⟨n', b, v', hnv,
        Or.inr ⟨by simp [evaluate, preprocess_optimized_params, hc], hlt⟩,
        by simp [evaluate, preprocess_optimized_params, hc]⟩

/-- Claim C5 (witness): `a = 5.0` exactly at the max of [0,5] is not
flagged, and `a = 6.0` makes `evaluate` fail with the violation naming `a`
and the bound 5, with no sample requested. -/
theorem c5_witness :
    (check_optimization_bounds pA5 cfgBounds5.bounds ≠ .error (.overMax "a" 5) ∧
     check_optimization_bounds pA5 cfgBounds5.bounds ≠ .error (.underMin "a" 5)) ∧
    (∃ n' b v', assocGet pA6 n' = some v' ∧
      (((evaluate cfgBounds5 (fun _ => 0) pA6).1 = .error (.overMax n' b) ∧ v'.toRat > b) ∨
       ((evaluate cfgBounds5 (fun _ => 0) pA6).1 = .error (.underMin n' b) ∧ v'.toRat < b)) ∧
      (evaluate cfgBounds5 (fun _ => 0) pA6).2 = []) :=
  ⟨(c5_bounds_enforcement cfgBounds5 (fun _ => 0) pA5 (by decide) (by decide) (by decide)).1
      "a" 0 5 (PVal.float 5) (by decide) (by decide) (Or.inr (by decide)) 5,
   (c5_bounds_enforcement cfgBounds5 (fun _ => 0) pA6 (by decide) (by decide) (by decide)).2
      "a" 0 5 (PVal.float 6) (by decide) (by decide) (Or.inl (by decide))⟩

theorem cast_round_missing_default (cfg : OFConfig) (params : OptParams)
    (hscope : ∀ kv ∈ params, (assocGet cfg.bounds kv.1).isSome = true)
    (name : String) (v : PVal) (hmem : (name, v) ∈ params)
    (hdef : assocGet cfg.defaults name = none) :
    ∃ n', cast_round_params cfg params = .error (.keyError n') ∧
      assocGet cfg.defaults n' = none ∧ n' ∈ params.map Prod.fst := by
  induction params with
  | nil => simp at hmem
  | cons hd tl ih =>
    rcases hd with ⟨pn, pv⟩
    have hsc := hscope (pn, pv) (List.mem_cons_self _ _)
    rcases hg : assocGet cfg.defaults pn with _ | dv
    · refine ⟨pn, ?_, hg, by simp⟩
      simp [cast_round_params, hsc, hg]
      intro hnone
      rw [hnone] at hsc
      simp at hsc
    · have hmem' : (name, v) ∈ tl := by
        rcases List.mem_cons.mp hmem with he | he
        · exfalso
          rw [Prod.mk.injEq] at he
          rw [he.1] at hdef
          rw [hg] at hdef
          exact Option.noConfusion hdef
        · exact he
      obtain ⟨n', herr, hdn, hmm⟩ :=
        ih (fun kv hkv => hscope kv (List.mem_cons_of_mem _ hkv)) hmem'
      refine ⟨n', ?_, hdn, by simp [hmm]⟩
      simp [cast_round_params, hsc, hg, herr]
      intro hnone
      rw [hnone] at hsc
      simp at hsc

/-- Claim C10: `evaluate` is total only when every bound parameter name also
has a default: whenever the request passes the bounds validation and the
scope check but some supplied (bound) name is absent from the defaults, the
type-cast step fails with an uncaught KeyError — not one of the spec's named
error classes — and no sample is requested. -/
theorem c10_cast_keyerror (cfg : OFConfig) (src : OptParams → ℚ) (params : OptParams)
    (hb : check_optimization_bounds params cfg.bounds = .ok ())
    (hscope : ∀ kv ∈ params, (assocGet cfg.bounds kv.1).isSome = true)
    (name : String) (v : PVal) (hmem : (name, v) ∈ params)
    (hdef : assocGet cfg.defaults name = none) :
    ∃ n', (evaluate cfg src params).1 = .error (.keyError n') ∧
      assocGet cfg.defaults n' = none ∧ n' ∈ params.map Prod.fst ∧
      (evaluate cfg src params).2 = [] := by
  obtain ⟨n', herr, hdn, hmm⟩ :=
    cast_round_missing_default cfg params hscope name v hmem hdef
  exact ⟨n', by simp [evaluate, preprocess_optimized_params, hb, herr], hdn, hmm,
    by simp [evaluate, preprocess_optimized_params, hb, herr]⟩

/-- Claim C10 (witness): bounds know `a`, the defaults do not; the request
`a = 3.0` passes its bounds check yet `evaluate` dies with the KeyError. -/
theorem c10_witness :
    ∃ n', (evaluate cfgA5 (fun _ => 0) pA3).1 = .error (.keyError n') ∧
      assocGet cfgA5.defaults n' = none ∧ n' ∈ pA3.map Prod.fst ∧
      (evaluate cfgA5 (fun _ => 0) pA3).2 = [] :=
  c10_cast_keyerror cfgA5 (fun _ => 0) pA3 (by decide) (by decide) "a" (PVal.float 3)
    (by decide) rfl

theorem defined_by_go_count (cfg : OFConfig) (params : OptParams)
    (hnon : ∀ kv ∈ params, (assocGet cfg.bounds kv.1).isSome = false →
      ((assocGet cfg.defaults kv.1).map (pyPValEq kv.2)).getD false = true) :
    ∀ cnt, defined_by_go cfg params cnt =
      (if cnt + (params.filter fun kv => (assocGet cfg.bounds kv.1).isSome).length
          = cfg.bounds.length
       then .ok true else .error .inconsistentSample) := by
  induction params with
  | nil =>
    intro cnt
    simp [defined_by_go]
  | cons hd tl ih =>
    intro cnt
    rcases hd with ⟨pn, pv⟩
    have ihtl := ih (fun kv hkv => hnon kv (List.mem_cons_of_mem _ hkv))
    cases hb : (assocGet cfg.bounds pn).isSome
    · have hH := hnon (pn, pv) (List.mem_cons_self _ _) hb
      rcases hg : assocGet cfg.defaults pn with _ | d
      · rw [hg] at hH
        simp at hH
      · rw [hg] at hH
        have hH2 : pyPValEq pv d = true := by simpa using hH
        rw [show defined_by_go cfg ((pn, pv) :: tl) cnt = defined_by_go cfg tl cnt from by
          simp [defined_by_go, hb, hg, hH2]]
        rw [ihtl cnt]
        have hfil :
            (((pn, pv) :: tl).filter fun kv => (assocGet cfg.bounds kv.1).isSome).length
            = (tl.filter fun kv => (assocGet cfg.bounds kv.1).isSome).length := by
          simp [List.filter_cons, hb]
        rw [hfil]
    · rw [show defined_by_go cfg ((pn, pv) :: tl) cnt = defined_by_go cfg tl (cnt + 1) from by
        simp [defined_by_go, hb]]
      rw [ihtl (cnt + 1)]
      have hfil :
          (((pn, pv) :: tl).filter fun kv => (assocGet cfg.bounds kv.1).isSome).length
          = (tl.filter fun kv => (assocGet cfg.bounds kv.1).isSome).length + 1 := by
        simp [List.filter_cons, hb]
      rw [hfil]
      exact if_congr (by omega) rfl rfl

/-- Claim C7 (amended): a stored Sample whose parameter set lacks one of the
bound parameters makes `__iter__` raise the LookupError-class inconsistency
when reaching it, *provided* every non-optimized parameter the Sample does
carry equals its default; when some non-optimized parameter differs from
its default, the Sample is silently filtered out instead (see the
counterexample). -/
theorem c7_missing_bound_param (cfg : OFConfig) (s : OFSample) (bn : String)
    (hbnd : (cfg.bounds.map Prod.fst).Nodup)
    (hpnd : (s.parameters.map Prod.fst).Nodup)
    (hbn : bn ∈ cfg.bounds.map Prod.fst)
    (habs : assocGet s.parameters bn = none)
    (hnon : ∀ kv ∈ s.parameters, (assocGet cfg.bounds kv.1).isSome = false →
      ((assocGet cfg.defaults kv.1).map (pyPValEq kv.2)).getD false = true) :
    defined_by cfg s.parameters = .error .inconsistentSample ∧
    ∀ rest, iterSamples cfg (s :: rest) = .error .inconsistentSample := by
  have hlen : (s.parameters.filter fun kv => (assocGet cfg.bounds kv.1).isSome).length
      < cfg.bounds.length := by
    set K := (s.parameters.filter fun kv => (assocGet cfg.bounds kv.1).isSome).map Prod.fst
      with hK
    have hKlen : K.length =
        (s.parameters.filter fun kv => (assocGet cfg.bounds kv.1).isSome).length := by
      rw [hK, List.length_map]
    have hKnd : K.Nodup := by
      refine List.Nodup.sublist ?_ hpnd
      rw [hK]
      exact List.Sublist.map Prod.fst (List.filter_sublist _)
    have hKsub : K ⊆ (cfg.bounds.map Prod.fst).erase bn := by
      intro x hx
      rw [hK] at hx
      obtain ⟨kv, hkv, rfl⟩ := List.mem_map.mp hx
      have hkvf := List.of_mem_filter hkv
      have hxin : kv.1 ∈ cfg.bounds.map Prod.fst := by
        rcases hy : assocGet cfg.bounds kv.1 with _ | y
        · rw [hy] at hkvf
          simp at hkvf
        · exact mem_keys_of_assocGet hy
      have hxne : kv.1 ≠ bn := by
        intro hkb
        have hmm : kv.1 ∈ s.parameters.map Prod.fst :=
          List.mem_map.mpr ⟨kv, List.mem_of_mem_filter hkv, rfl⟩
        rw [hkb] at hmm
        exact not_mem_keys_of_assocGet_none habs hmm
      exact (List.Nodup.mem_erase_iff hbnd).mpr ⟨hxne, hxin⟩
    have hle := (List.Nodup.subperm hKnd hKsub).length_le
    rw [List.length_erase_of_mem hbn, hKlen] at hle
    have hpos : 0 < (cfg.bounds.map Prod.fst).length := List.length_pos_of_mem hbn
    rw [List.length_map] at hle hpos
    omega
  have hgo := defined_by_go_count cfg s.parameters hnon 0
  have hdef : defined_by cfg s.parameters = .error .inconsistentSample := by
    unfold defined_by
    rw [hgo, if_neg (by omega)]
  exact ⟨hdef, fun rest => by simp [iterSamples, hdef]⟩

/-- Claim C7 (witness): the sample `sampleBdef` lacks the bound parameter
`a` while carrying only default-valued non-optimized parameters, so the
iteration raises the LookupError-class inconsistency. -/
theorem c7_witness :
    defined_by cfgAonly sampleBdef.parameters = .error .inconsistentSample ∧
    iterSamples cfgAonly [sampleBdef] = .error .inconsistentSample :=
  ⟨(c7_missing_bound_param cfgAonly sampleBdef "a" (by decide) (by decide) (by decide) rfl
      (by decide)).1,
   (c7_missing_bound_param cfgAonly sampleBdef "a" (by decide) (by decide) (by decide) rfl
      (by decide)).2 []⟩

theorem sample_usable_spec (cfg : OFConfig) (fixed : OptParams) (p : OptParams)
    (hcov : ∀ kv ∈ p,
      if (assocGet fixed kv.1).isSome then (assocGet cfg.defaults kv.1).isSome = true
      else (assocGet cfg.bounds kv.1).isSome = true) :
    sample_usable cfg fixed p = .ok (usable_per_spec cfg fixed p) := by
  induction p with
  | nil => simp [sample_usable, usable_per_spec]
  | cons hd tl ih =>
    rcases hd with ⟨pn, pv⟩
    have hhd := hcov (pn, pv) (List.mem_cons_self _ _)
    have ihtl := ih (fun kv hkv => hcov kv (List.mem_cons_of_mem _ hkv))
    by_cases hf : (assocGet fixed pn).isSome = true
    · rw [if_pos hf] at hhd
      obtain ⟨d, hd⟩ := Option.isSome_iff_exists.mp hhd
      cases he : pyPValEq d pv
      · simp [sample_usable, usable_per_spec, hf, hd, he]
      · simp only [sample_usable, usable_per_spec, hf, if_pos, hd, he, List.all_cons]
        rw [ihtl]
        simp [usable_per_spec]
    · rw [if_neg hf] at hhd
      obtain ⟨bd, hbd⟩ := Option.isSome_iff_exists.mp hhd
      rcases bd with ⟨lo, hi⟩
      by_cases hlt : pv.toRat < lo
      · have hnle : ¬ lo ≤ pv.toRat := not_le.mpr hlt
        simp [sample_usable, usable_per_spec, hf, hbd, hlt, hnle]
      · by_cases hgt : pv.toRat > hi
        · have hnle : ¬ pv.toRat ≤ hi := not_le.mpr hgt
          simp [sample_usable, usable_per_spec, hf, hbd, hlt, hgt, hnle]
        · simp [sample_usable, usable_per_spec, hf, hbd, hlt, hgt, ihtl,
            not_lt.mp hlt, not_lt.mp hgt]

/-- Claim C8 (amended): for samples in the adapter's domain all of whose
parameters are either named in `fixed_params` (with a default present) or
present in the bounds mapping, `samples_filtered` yields exactly the
`__iter__` triples whose fixed-named parameters equal their defaults and
whose remaining parameters lie inside the bounds; a domain sample carrying
any other parameter instead aborts the iteration with an uncaught KeyError
(see the counterexample). -/
theorem c8_filtered_refines (cfg : OFConfig) (fixed : OptParams) (samples : List OFSample)
    (hdb : ∀ s ∈ samples, defined_by cfg s.parameters = .ok true ∨
                          defined_by cfg s.parameters = .ok false)
    (hcov : ∀ s ∈ samples, defined_by cfg s.parameters = .ok true →
      ∀ kv ∈ s.parameters,
        if (assocGet fixed kv.1).isSome then (assocGet cfg.defaults kv.1).isSome = true
        else (assocGet cfg.bounds kv.1).isSome = true) :
    ∃ ys, iterSamples cfg samples = .ok ys ∧
      samples_filtered cfg fixed samples =
        .ok (ys.filter fun t => usable_per_spec cfg fixed t.1) := by
  induction samples with
  | nil => exact ⟨[], rfl, rfl⟩
  | cons s rest ih =>
    obtain ⟨ys, hiter, hfilt⟩ := ih (fun x hx => hdb x (List.mem_cons_of_mem _ hx))
      (fun x hx => hcov x (List.mem_cons_of_mem _ hx))
    rcases hdb s (List.mem_cons_self _ _) with hs | hs
    · have hu := sample_usable_spec cfg fixed s.parameters
        (hcov s (List.mem_cons_self _ _) hs)
    
      cases husable : usable_per_spec cfg fixed s.parameters
      · refine ⟨(s.parameters, s.measure_value, s) :: ys, ?_, ?_⟩
        · simp [iterSamples, hs, hiter]
        · rw [husable] at hu
          simp [samples_filtered, hs, hu, hfilt, List.filter_cons, husable]
      · refine ⟨(s.parameters, s.measure_value, s) :: ys, ?_, ?_⟩
        · simp [iterSamples, hs, hiter]
        · rw [husable] at hu
          simp [samples_filtered, hs, hu, hfilt, List.filter_cons, husable]
    · exact ⟨ys, by simp [iterSamples, hs, hiter],
        by simp [samples_filtered, hs, hfilt]⟩

/-- Claim C8 (witness): the fully covered single-sample source, where the
refinement of `samples_filtered` to the spec's filter is concrete. -/
theorem c8_witness :
    ∃ ys, iterSamples cfgA [sampleA0] = .ok ys ∧
      samples_filtered cfgA fixedA [sampleA0] =
        .ok (ys.filter fun t => usable_per_spec cfgA fixedA t.1) :=
  c8_filtered_refines cfgA fixedA [sampleA0] (by decide) (by decide)

theorem normalize_loop_ok (bl : List (String × ℚ × ℚ)) :
    ∀ d : OptParams, (∀ nb ∈ bl, (assocGet d nb.1).isSome = true) →
    ∃ r, normalize_loop d bl = .ok r := by
  induction bl with
  | nil => exact fun d _ => ⟨d, rfl⟩
  | cons hd tl ih =>
    intro d hall
    rcases hd with ⟨n0, lo0, hi0⟩
    obtain ⟨v0, hv0⟩ :=
      Option.isSome_iff_exists.mp (hall (n0, lo0, hi0) (List.mem_cons_self _ _))
    obtain ⟨r, hr⟩ := ih (assocSet d n0 (.float ((v0.toRat - lo0) / (hi0 - lo0))))
      (fun nb hnb => assocGet_isSome_assocSet _ _ _ _ (hall nb (List.mem_cons_of_mem _ hnb)))
    exact ⟨r, by simp [normalize_loop, hv0, hr]⟩

theorem normalize_loop_notin (bl : List (String × ℚ × ℚ)) :
    ∀ (d r : OptParams) (n : String), n ∉ bl.map Prod.fst →
    normalize_loop d bl = .ok r → assocGet r n = assocGet d n := by
  induction bl with
  | nil =>
    intro d r n _ h
    simp only [normalize_loop] at h
    injection h with h
    rw [h]
  | cons hd tl ih =>
    intro d r n hn h
    rcases hd with ⟨n0, lo0, hi0⟩
    simp only [List.map_cons, List.mem_cons] at hn
    push_neg at hn
    rcases hg : assocGet d n0 with _ | v0
    · simp only [normalize_loop, hg] at h
      exact absurd h (by simp)
    · simp only [normalize_loop, hg] at h
      rw [ih _ r n hn.2 h]
      exact assocGet_assocSet_ne d n0 n _ hn.1

theorem normalize_loop_value (bl : List (String × ℚ × ℚ)) :
    ∀ (d r : OptParams) (n : String) (lo hi : ℚ) (v : PVal),
    (bl.map Prod.fst).Nodup → (n, lo, hi) ∈ bl → assocGet d n = some v →
    normalize_loop d bl = .ok r →
    assocGet r n = some (.float ((v.toRat - lo) / (hi - lo))) := by
  induction bl with
  | nil =>
    intro d r n lo hi v _ hmem _ _
    simp at hmem
  | cons hd tl ih =>
    intro d r n lo hi v hnd hmem hv h
    rcases hd with ⟨n0, lo0, hi0⟩
    simp only [List.map_cons, List.nodup_cons] at hnd
    rcases hg : assocGet d n0 with _ | v0
    · simp only [normalize_loop, hg] at h
      exact absurd h (by simp)
    · simp only [normalize_loop, hg] at h
      by_cases hn0 : n0 = n
      · subst hn0
        rw [hg] at hv
        injection hv with hv
        subst hv
        have hhd : lo0 = lo ∧ hi0 = hi := by
          rcases List.mem_cons.mp hmem with he | he
          · rw [Prod.mk.injEq, Prod.mk.injEq] at he
            exact ⟨he.2.1.symm, he.2.2.symm⟩
          · exact absurd (List.mem_map.mpr ⟨(n0, lo, hi), he, rfl⟩) hnd.1
        rcases hhd with ⟨rfl, rfl⟩
        rw [normalize_loop_notin tl _ r n0 hnd.1 h, assocGet_assocSet_self]
      · have hne : n ≠ n0 := fun hh => hn0 hh.symm
        have hmem' : (n, lo, hi) ∈ tl := by
          rcases List.mem_cons.mp hmem with he | he
          · exfalso
            rw [Prod.mk.injEq] at he
            exact hne he.1
          · exact he
        have hv' : assocGet
            (assocSet d n0 (.float ((v0.toRat - lo0) / (hi0 - lo0)))) n = some v := by
          rw [assocGet_assocSet_ne d n0 n _ hne]
          exact hv
        exact ih _ r n lo hi v hnd.2 hmem' hv' h

theorem denormalize_loop_ok (bl : List (String × ℚ × ℚ)) :
    ∀ d : OptParams, (∀ nb ∈ bl, (assocGet d nb.1).isSome = true) →
    ∃ r, denormalize_loop d bl = .ok r := by
  induction bl with
  | nil => exact fun d _ => ⟨d, rfl⟩
  | cons hd tl ih =>
    intro d hall
    rcases hd with ⟨n0, lo0, hi0⟩
    obtain ⟨v0, hv0⟩ :=
      Option.isSome_iff_exists.mp (hall (n0, lo0, hi0) (List.mem_cons_self _ _))
    obtain ⟨r, hr⟩ := ih (assocSet d n0 (.float (v0.toRat * (hi0 - lo0) + lo0)))
      (fun nb hnb => assocGet_isSome_assocSet _ _ _ _ (hall nb (List.mem_cons_of_mem _ hnb)))
    exact ⟨r, by simp [denormalize_loop, hv0, hr]⟩

theorem denormalize_loop_notin (bl : List (String × ℚ × ℚ)) :
    ∀ (d r : OptParams) (n : String), n ∉ bl.map Prod.fst →
    denormalize_loop d bl = .ok r → assocGet r n = assocGet d n := by
  induction bl with
  | nil =>
    intro d r n _ h
    simp only [denormalize_loop] at h
    injection h with h
    rw [h]
  | cons hd tl ih =>
    intro d r n hn h
    rcases hd with ⟨n0, lo0, hi0⟩
    simp only [List.map_cons, List.mem_cons] at hn
    push_neg at hn
    rcases hg : assocGet d n0 with _ | v0
    · simp only [denormalize_loop, hg] at h
      exact absurd h (by simp)
    · simp only [denormalize_loop, hg] at h
      rw [ih _ r n hn.2 h]
      exact assocGet_assocSet_ne d n0 n _ hn.1

theorem denormalize_loop_value (bl : List (String × ℚ × ℚ)) :
    ∀ (d r : OptParams) (n : String) (lo hi : ℚ) (v : PVal),
    (bl.map Prod.fst).Nodup → (n, lo, hi) ∈ bl → assocGet d n = some v →
    denormalize_loop d bl = .ok r →
    assocGet r n = some (.float (v.toRat * (hi - lo) + lo)) := by
  induction bl with
  | nil =>
    intro d r n lo hi v _ hmem _ _
    simp at hmem
  | cons hd tl ih =>
    intro d r n lo hi v hnd hmem hv h
    rcases hd with ⟨n0, lo0, hi0⟩
    simp only [List.map_cons, List.nodup_cons] at hnd
    rcases hg : assocGet d n0 with _ | v0
    · simp only [denormalize_loop, hg] at h
      exact absurd h (by simp)
    · simp only [denormalize_loop, hg] at h
      by_cases hn0 : n0 = n
      · subst hn0
        rw [hg] at hv
        injection hv with hv
        subst hv
        have hhd : lo0 = lo ∧ hi0 = hi := by
          rcases List.mem_cons.mp hmem with he | he
          · rw [Prod.mk.injEq, Prod.mk.injEq] at he
            exact ⟨he.2.1.symm, he.2.2.symm⟩
          · exact absurd (List.mem_map.mpr ⟨(n0, lo, hi), he, rfl⟩) hnd.1
        rcases hhd with ⟨rfl, rfl⟩
        rw [denormalize_loop_notin tl _ r n0 hnd.1 h, assocGet_assocSet_self]
      · have hne : n ≠ n0 := fun hh => hn0 hh.symm
        have hmem' : (n, lo, hi) ∈ tl := by
          rcases List.mem_cons.mp hmem with he | he
          · exfalso
            rw [Prod.mk.injEq] at he
            exact hne he.1
          · exact he
        have hv' : assocGet
            (assocSet d n0 (.float (v0.toRat * (hi0 - lo0) + lo0))) n = some v := by
          rw [assocGet_assocSet_ne d n0 n _ hne]
          exact hv
        exact ih _ r n lo hi v hnd.2 hmem' hv' h

/-- Claim C9 (amended): when every bound parameter is present in the given
mapping, `bayropt`'s `normalize_parameters` computes the elementwise affine
result on a copy and leaves the caller's mapping unchanged; the top-level
`normalize_parameters` and both `denormalize_parameters` compute the same
affine results in place — the dict they return *is* the caller's mapping
after the call.  The affine values are witnessed at any bound entry. -/
theorem c9_copy_vs_inplace (cfg : OFConfig) (params : OptParams)
    (n : String) (lo hi : ℚ) (v : PVal)
    (hnd : (cfg.bounds.map Prod.fst).Nodup)
    (hall : ∀ nb ∈ cfg.bounds, (assocGet params nb.1).isSome = true)
    (hmem : (n, lo, hi) ∈ cfg.bounds)
    (hv : assocGet params n = some v) :
    ∃ r rd,
      OF.normalize_parameters cfg params = .ok (r, r) ∧
      BayroptOF.normalize_parameters cfg params = .ok (r, params) ∧
      OF.denormalize_parameters cfg params = .ok (rd, rd) ∧
      BayroptOF.denormalize_parameters cfg params = .ok (rd, rd) ∧
      assocGet r n = some (.float ((v.toRat - lo) / (hi - lo))) ∧
      assocGet rd n = some (.float (v.toRat * (hi - lo) + lo)) := by
  obtain ⟨r, hr⟩ := normalize_loop_ok cfg.bounds params hall
  obtain ⟨rd, hrd⟩ := denormalize_loop_ok cfg.bounds params hall
  exact ⟨r, rd,
    by simp [OF.normalize_parameters, hr],
    by simp [BayroptOF.normalize_parameters, hr],
    by simp [OF.denormalize_parameters, hrd],
    by simp [BayroptOF.denormalize_parameters, hrd],
    normalize_loop_value cfg.bounds params r n lo hi v hnd hmem hv hr,
    denormalize_loop_value cfg.bounds params rd n lo hi v hnd hmem hv hrd⟩

/-- Claim C9 (witness): the amended aliasing statement at the concrete
request `a = 2.0` over bounds (0,4). -/
theorem c9_witness :
    ∃ r rd,
      OF.normalize_parameters cfgA4 pA2 = .ok (r, r) ∧
      BayroptOF.normalize_parameters cfgA4 pA2 = .ok (r, pA2) ∧
      OF.denormalize_parameters cfgA4 pA2 = .ok (rd, rd) ∧
      BayroptOF.denormalize_parameters cfgA4 pA2 = .ok (rd, rd) ∧
      assocGet r "a" = some (.float (((PVal.float 2).toRat - 0) / (4 - 0))) ∧
      assocGet rd "a" = some (.float ((PVal.float 2).toRat * (4 - 0) + 0)) :=
  c9_copy_vs_inplace cfgA4 pA2 "a" 0 4 (PVal.float 2) (by decide) (by decide) (by decide) rfl
